import Mathlib

/-!
Verification of the Mix Space publishing core: a shallow embedding of the
frontmatter parser, content-type classifier, payload builder, backlink
resolver, remote client wrapper and synchronization orchestrator, together
with theorems about the specified behaviors.

Strings are modelled as `List Char` internally (`String` wrappers at the
boundary).  JavaScript truthiness and the dynamic frontmatter value space
are modelled by the `FmValue` type.  Numeric frontmatter literals are
modelled as integers (optional sign followed by digits); other JavaScript
numeric formats are outside the scope of the verified claims.
-/

namespace MixSpace

/-- Frontmatter values: string, number, boolean, or list of strings
(the shapes produced by the frontmatter parser). -/
inductive FmValue where
  | str (s : String)
  | num (n : Int)
  | bool (b : Bool)
  | list (xs : List String)
  deriving DecidableEq, Repr

/-- JavaScript truthiness of a frontmatter value: empty string, zero and
`false` are falsy; arrays are always truthy. -/
def FmValue.truthy : FmValue → Bool
  | .str s => s ≠ ""
  | .num n => n ≠ 0
  | .bool b => b
  | .list _ => true

/-- JavaScript string interpolation of a frontmatter value. -/
def FmValue.toStr : FmValue → String
  | .str s => s
  | .num n => toString n
  | .bool b => if b then "true" else "false"
  | .list xs => String.intercalate "," xs

/-- Truthiness of an optional (possibly absent) value: `undefined` is falsy. -/
def optTruthy : Option FmValue → Bool
  | none => false
  | some v => v.truthy

/-- A frontmatter map: ordered key/value association list, unique keys. -/
abbrev Frontmatter := List (String × FmValue)

/-- Look up a key in a frontmatter map (first binding wins; keys are unique). -/
def fmGet (fm : Frontmatter) (k : String) : Option FmValue :=
  (fm.find? (fun p => p.1 = k)).map (·.2)

/-- Set a key in a frontmatter map: overwrite in place if the key exists,
append otherwise (JavaScript object assignment). -/
def fmSet (fm : Frontmatter) (k : String) (v : FmValue) : Frontmatter :=
  if fm.any (fun p => p.1 = k) then
    fm.map (fun p => if p.1 = k then (k, v) else p)
  else
    fm ++ [(k, v)]

/-- `fm[k]` is a string equal to `s` (JavaScript `===` against a string literal;
comparisons across types are false). -/
def fmIsStr (fm : Frontmatter) (k : String) (s : String) : Bool :=
  match fmGet fm k with
  | some (.str t) => t = s
  | _ => false

-- ===== Character / string helpers (JavaScript semantics, ASCII core) =====

/-- Whitespace characters recognized by `\s` / `String.prototype.trim`
(ASCII core). -/
def isWsChar (c : Char) : Bool :=
  c = ' ' ∨ c = '\t' ∨ c = '\n' ∨ c = '\r'

/-- ASCII lower-casing of one character, by code point (65-90 are `A`-`Z`;
identity elsewhere — faithful to `toLowerCase` on the alphabets relevant to
this code). -/
def lowerChar (c : Char) : Char :=
  if 65 ≤ c.toNat ∧ c.toNat ≤ 90 then Char.ofNat (c.toNat + 32) else c

/-- `String.prototype.trim` on a character list. -/
def trimL (cs : List Char) : List Char :=
  ((cs.dropWhile isWsChar).reverse.dropWhile isWsChar).reverse

/-- `String.prototype.toLowerCase` on a character list. -/
def lowerL (cs : List Char) : List Char := cs.map lowerChar

def trimS (s : String) : String := ⟨trimL s.data⟩

def lowerS (s : String) : String := ⟨lowerL s.data⟩

/-- Does the pattern occur at the head? (`List.isPrefixOf`, decidable). -/
def prefixAt (pat cs : List Char) : Bool := pat.isPrefixOf cs

/-- ECMAScript `GetSubstitution` for a string-pattern `replace` (no capture
groups): in the replacement text, `$$` yields `$`, `$&` yields the matched
text, a dollar followed by a backtick (code point 96) yields the subject
text before the match, and `$'` yields the subject text after the match;
every other sequence — including `$n`, since a string pattern has no
capture groups — is kept literally. -/
def expandDollar (pre matched post : List Char) : List Char → List Char
  | [] => []
  | [c] => [c]
  | c :: d :: r =>
    if c = '$' then
      if d = '$' then '$' :: expandDollar pre matched post r
      else if d = '&' then matched ++ expandDollar pre matched post r
      else if d = Char.ofNat 96 then pre ++ expandDollar pre matched post r
      else if d = '\'' then post ++ expandDollar pre matched post r
      else c :: expandDollar pre matched post (d :: r)
    else c :: expandDollar pre matched post (d :: r)

/-- Scanning loop of the first-occurrence replacement: `rpre` accumulates
the scanned subject text in reverse; at the first occurrence of the pattern
the `GetSubstitution` expansion of the replacement is inserted between the
subject text before and after the match. -/
def replaceFirstAux (rpre cs pat rep : List Char) : List Char :=
  match cs with
  | [] =>
    if prefixAt pat [] then rpre.reverse ++ expandDollar rpre.reverse pat [] rep
    else rpre.reverse
  | c :: cs' =>
    if prefixAt pat (c :: cs') then
      rpre.reverse ++ expandDollar rpre.reverse pat ((c :: cs').drop pat.length) rep
        ++ (c :: cs').drop pat.length
    else replaceFirstAux (c :: rpre) cs' pat rep

/-- First-occurrence substring replacement, the semantics of JavaScript
`String.prototype.replace` with a plain string pattern, including the
`GetSubstitution` expansion of `$`-sequences in the replacement text. -/
def replaceFirstL (cs pat rep : List Char) : List Char :=
  replaceFirstAux [] cs pat rep

/-- Split a character list at every occurrence of a separator character
(JavaScript `String.prototype.split` with a one-character separator). -/
def splitOnChar (sep : Char) (cs : List Char) : List (List Char) :=
  match cs with
  | [] => [[]]
  | c :: cs' =>
    if c = sep then [] :: splitOnChar sep cs'
    else
      match splitOnChar sep cs' with
      | [] => [[c]]
      | g :: gs => (c :: g) :: gs

/-- Integer numeral recognition: the faithful core of `Number(value)` used by
the frontmatter parser (optional sign followed by one or more digits, with
surrounding whitespace trimmed by `Number` itself). -/
def parseIntNumeral (cs : List Char) : Option Int :=
  let t := trimL cs
  match t with
  | [] => none
  | c :: rest =>
    let (neg, digits) :=
      if c = '-' then (true, rest)
      else if c = '+' then (false, rest)
      else (false, t)
    if digits ≠ [] ∧ digits.all Char.isDigit then
      let n : Nat := digits.foldl (fun acc d => acc * 10 + (d.toNat - '0'.toNat)) 0
      some (if neg then -(n : Int) else (n : Int))
    else none

/-- Split at the first occurrence of a pattern: returns the characters before
the occurrence and the characters after it (lazy regex search core). -/
def splitOnFirst (pat : List Char) (cs : List Char) : Option (List Char × List Char) :=
  if prefixAt pat cs then some ([], cs.drop pat.length)
  else
    match cs with
    | [] => none
    | c :: cs' => (splitOnFirst pat cs').map (fun p => (c :: p.1, p.2))

-- ===== Frontmatter Parser (src/utils/frontmatter.ts) =====

/-- Word character of the `\w` regex class. -/
def isWordChar (c : Char) : Bool :=
  ('a' ≤ c ∧ c ≤ 'z') ∨ ('A' ≤ c ∧ c ≤ 'Z') ∨ ('0' ≤ c ∧ c ≤ '9') ∨ c = '_'

/-- Strip one leading and one trailing quote when both ends are quote
characters: the effect of `value.replace(/^['"](.*)['"]$/, '$1')` (the two
quotes need not match each other). -/
def stripQuotes (cs : List Char) : List Char :=
  let isQuote : Char → Bool := fun q => q = '\'' ∨ q = '"'
  match cs, cs.getLast? with
  | c :: d :: rest, some last =>
    if isQuote c ∧ isQuote last then (d :: rest).dropLast else c :: d :: rest
  | _, _ => cs

/-- Match a yaml header line against `^(\w+):\s*(.*)$`, returning the key and
the raw value (leading whitespace after the colon consumed by `\s*`). -/
def matchKeyValue (line : List Char) : Option (List Char × List Char) :=
  let key := line.takeWhile isWordChar
  if key = [] then none
  else
    match line.drop key.length with
    | ':' :: rest => some (key, rest.dropWhile isWsChar)
    | _ => none

/-- Match a yaml header line against the array-item pattern `^\s+-\s+`,
returning the item text after the matched prefix. -/
def matchArrayItem (line : List Char) : Option (List Char) :=
  let ws := line.takeWhile isWsChar
  if ws = [] then none
  else
    match line.drop ws.length with
    | '-' :: rest =>
      if rest.takeWhile isWsChar = [] then none
      else some (rest.dropWhile isWsChar)
    | _ => none

/-- Convert a raw `key: value` value to a frontmatter value: `true`/`false`
become booleans, integer numerals become numbers, and everything else is a
string with surrounding quotes stripped. -/
def convertScalar (value : List Char) : FmValue :=
  if value = "true".data then .bool true
  else if value = "false".data then .bool false
  else
    match parseIntNumeral value with
    | some n => .num n
    | none => .str ⟨stripQuotes value⟩

/-- State of the line loop: frontmatter so far plus the provisionally open
array key, if any. -/
structure ParseState where
  fm : Frontmatter
  cur : Option (String × List String)
  deriving Repr

/-- Flush the pending array into the map, as done before every
non-array-item line and at the end of the loop. -/
def flushArray (st : ParseState) : ParseState :=
  match st.cur with
  | some (k, arr) => { fm := fmSet st.fm k (.list arr), cur := none }
  | none => st

/-- Process one line of the yaml header block. -/
def parseLine (st : ParseState) (line : List Char) : ParseState :=
  match matchArrayItem line with
  | some item =>
    match st.cur with
    | some (k, arr) =>
      let v : String := ⟨stripQuotes (trimL item)⟩
      { st with cur := some (k, arr ++ [v]) }
    | none => st
  | none =>
    let st := flushArray st
    match matchKeyValue line with
    | some (key, value) =>
      if trimL value = [] then { st with cur := some (⟨key⟩, []) }
      else { st with fm := fmSet st.fm ⟨key⟩ (convertScalar value) }
    | none => st

/-- Parse the block of `key: value` lines between the markers. -/
def parseYamlBlock (yaml : List Char) : Frontmatter :=
  let lines := splitOnChar '\n' yaml
  (flushArray (lines.foldl parseLine { fm := [], cur := none })).fm

/-- The result of `parseFrontmatter`. -/
structure ParsedContent where
  frontmatter : Frontmatter
  body : String
  deriving DecidableEq, Repr

/-- The header regex `^---\n([\s\S]*?)\n---\n?([\s\S]*)$`: the opening marker,
then the shortest yaml block followed by `\n---`, an optional newline, and
the rest as body.  Returns `(yaml, body)` on a match. -/
def matchHeader (cs : List Char) : Option (List Char × List Char) :=
  if prefixAt "---\n".data cs then
    match splitOnFirst "\n---".data (cs.drop 4) with
    | some (yaml, after) =>
      some (yaml, match after with
                  | '\n' :: rest => rest
                  | rest => rest)
    | none => none
  else none

/-- `parseFrontmatter` (src/utils/frontmatter.ts): parse yaml frontmatter from
markdown content; when the header regex does not match, the whole input is
returned as the body with an empty map. -/
def parseFrontmatter (content : String) : ParsedContent :=
  match matchHeader content.data with
  | none => { frontmatter := [], body := content }
  | some (yaml, body) => { frontmatter := parseYamlBlock yaml, body := ⟨trimL body⟩ }

-- ===== Content-Type Classifier and Payload Builder (src/utils/payload.ts) =====

inductive ContentType where
  | note
  | post
  deriving DecidableEq, Repr

/-- `detectContentType`: explicit `type` field first, then category signals,
then note-specific signals, defaulting to note. -/
def detectContentType (fm : Frontmatter) : ContentType :=
  if fmIsStr fm "type" "post" then .post
  else if fmIsStr fm "type" "note" then .note
  else if optTruthy (fmGet fm "categories") ∨ optTruthy (fmGet fm "categoryId") then .post
  else if optTruthy (fmGet fm "mood") ∨ optTruthy (fmGet fm "weather")
      ∨ optTruthy (fmGet fm "topicId") then .note
  else .note

/-- `stripFirstH1IfMatchesTitle`: when the first body line is `# <title>` for
the resolved title, drop it and the immediately following blank lines. -/
def stripFirstH1IfMatchesTitle (body : String) (title : String) : String :=
  let lines := splitOnChar '\n' body.data
  match lines with
  | [] => body
  | first :: rest =>
    let firstTrimmed := trimL first
    match firstTrimmed with
    | '#' :: c :: t =>
      if isWsChar c ∧ trimS ⟨c :: t⟩ = title then
        String.intercalate "\n" ((rest.dropWhile (fun l => trimL l = [])).map
          (fun l => (⟨l⟩ : String)))
      else body
    | _ => body

structure NotePayload where
  title : String
  text : String
  mood : Option FmValue := none
  weather : Option FmValue := none
  allowComment : Option FmValue := none
  password : Option FmValue := none
  publicAt : Option FmValue := none
  bookmark : Option FmValue := none
  location : Option FmValue := none
  coordinates : Option FmValue := none
  topicId : Option FmValue := none
  deriving DecidableEq, Repr

/-- `buildNotePayload`: the file name is the title (the frontmatter `title`
is ignored); optional fields are copied only when present (truthy, or merely
defined for `allowComment`/`bookmark`). -/
def buildNotePayload (fm : Frontmatter) (body : String) (fileName : String) :
    NotePayload :=
  let title := fileName
  let processedBody := stripFirstH1IfMatchesTitle body title
  { title := title
    text := processedBody
    mood := if optTruthy (fmGet fm "mood") then fmGet fm "mood" else none
    weather := if optTruthy (fmGet fm "weather") then fmGet fm "weather" else none
    allowComment := fmGet fm "allowComment"
    password := if optTruthy (fmGet fm "password") then fmGet fm "password" else none
    publicAt := if optTruthy (fmGet fm "publicAt") then fmGet fm "publicAt" else none
    bookmark := fmGet fm "bookmark"
    location := if optTruthy (fmGet fm "location") then fmGet fm "location" else none
    coordinates := if optTruthy (fmGet fm "coordinates") then fmGet fm "coordinates" else none
    topicId := if optTruthy (fmGet fm "topicId") then fmGet fm "topicId" else none }

/-- A remote category entity. -/
structure Category where
  id : String
  name : String
  slug : String
  deriving DecidableEq, Repr

/-- `generateSlug` character class `[a-z0-9一-龥]`, by code point:
97-122 are `a`-`z`, 48-57 are `0`-`9`, 19968-40869 is the CJK range
U+4E00-U+9FA5. -/
def slugAllowed (c : Char) : Bool :=
  (97 ≤ c.toNat ∧ c.toNat ≤ 122) ∨ (48 ≤ c.toNat ∧ c.toNat ≤ 57) ∨
    (19968 ≤ c.toNat ∧ c.toNat ≤ 40869)

/-- Replace each maximal run of disallowed characters with a single hyphen.
The flag records whether a run is currently open (its hyphen already
emitted). -/
def collapseRunsF (afterDash : Bool) : List Char → List Char
  | [] => []
  | c :: cs =>
    if slugAllowed c then c :: collapseRunsF false cs
    else if afterDash then collapseRunsF true cs
    else '-' :: collapseRunsF true cs

/-- Remove one leading hyphen if present. -/
def dropLeadHyphen : List Char → List Char
  | [] => []
  | c :: cs => if c = '-' then cs else c :: cs

/-- Remove one trailing hyphen if present; together with `dropLeadHyphen`
this is `replace(/^-|-$/g, '')`. -/
def dropTrailHyphen (cs : List Char) : List Char :=
  (dropLeadHyphen cs.reverse).reverse

/-- `generateSlug`: lower-case, collapse runs of characters outside
`[a-z0-9一-龥]` to single hyphens, trim the boundary hyphens. -/
def generateSlug (title : String) : String :=
  ⟨dropTrailHyphen (dropLeadHyphen (collapseRunsF false (lowerL title.data)))⟩

/-- JavaScript strict equality of a dynamic frontmatter value against a
string: only a string value can compare equal. -/
def vEqS (v : FmValue) (s : String) : Bool :=
  match v with
  | .str t => t = s
  | _ => false

/-- `getCategoryByNameOrSlug` (src/api.ts): exact slug match first, then
exact name match; the comparison is JavaScript `===` against the raw
frontmatter value. -/
def getCategoryByNameOrSlug (cats : List Category) (value : FmValue) : Option Category :=
  match cats.find? (fun c => vEqS value c.slug) with
  | some c => some c
  | none => cats.find? (fun c => vEqS value c.name)

structure PostPayload where
  title : String
  text : String
  slug : FmValue
  categoryId : FmValue
  tags : Option (List String) := none
  summary : Option FmValue := none
  copyright : Option FmValue := none
  allowComment : Option FmValue := none
  pin : Option FmValue := none
  deriving DecidableEq, Repr

/-- The category-not-found error message, enumerating every available
category as `name(slug)` and rendering an empty list as `none`. -/
def categoryNotFoundMsg (value : FmValue) (cats : List Category) : String :=
  let available := String.intercalate ", " (cats.map (fun c => c.name ++ "(" ++ c.slug ++ ")"))
  "Category not found: \"" ++ value.toStr ++ "\". Available: [" ++
    (if available = "" then "none" else available) ++ "]"

/-- The distinct missing-category error message. -/
def missingCategoryMsg : String := "Post requires categoryId or categories field"

/-- Tag normalization: a list keeps its non-blank entries; a string is
trimmed, the literal `[]` / `[ ]` forms and the empty string mean no tags,
and otherwise the string is split on commas, entries trimmed and blanks
dropped; any other value shape yields no tags. -/
def normalizeTags (v : Option FmValue) : Option (List String) :=
  match v with
  | some (.list xs) => some (xs.filter (fun t => t ≠ "" ∧ trimS t ≠ ""))
  | some (.str s) =>
    let tagsStr := trimS s
    if tagsStr ≠ "" ∧ tagsStr ≠ "[]" ∧ tagsStr ≠ "[ ]" then
      some (((splitOnChar ',' tagsStr.data).map (fun t => (⟨trimL t⟩ : String))).filter
        (fun t => t ≠ ""))
    else none
  | _ => none

/-- The category-resolution step of `buildPostPayload`: keep a truthy direct
`categoryId`; otherwise, when a truthy `categories` value is present, look
it up among the remote categories, failing with the enumerating error. -/
def resolveCategoryId (fm : Frontmatter) (cats : List Category) :
    Except String (Option FmValue) :=
  if ¬ optTruthy (fmGet fm "categoryId") ∧ optTruthy (fmGet fm "categories") then
    match getCategoryByNameOrSlug cats ((fmGet fm "categories").getD (.str "")) with
    | some c => .ok (some (.str c.id))
    | none => .error (categoryNotFoundMsg ((fmGet fm "categories").getD (.str "")) cats)
  else .ok (fmGet fm "categoryId")

/-- `buildPostPayload`: resolve the category (direct id, else name/slug
lookup against the remote list, failing with the enumerating error; a still
missing or falsy category id fails with the distinct error), then build the
payload with the file name as title. -/
def buildPostPayload (fm : Frontmatter) (body : String) (fileName : String)
    (cats : List Category) : Except String PostPayload :=
  match resolveCategoryId fm cats with
  | .error e => .error e
  | .ok categoryId =>
    if ¬ optTruthy categoryId then .error missingCategoryMsg
    else
      let cid := categoryId.getD (.str "")
      let title := fileName
      let processedBody := stripFirstH1IfMatchesTitle body title
      .ok
        { title := title
          text := processedBody
          slug := if optTruthy (fmGet fm "slug") then (fmGet fm "slug").getD (.str "")
                  else .str (generateSlug title)
          categoryId := cid
          tags := if optTruthy (fmGet fm "tags") then normalizeTags (fmGet fm "tags") else none
          summary := if optTruthy (fmGet fm "summary") then fmGet fm "summary" else none
          copyright := fmGet fm "copyright"
          allowComment := fmGet fm "allowComment"
          pin := if optTruthy (fmGet fm "pin") then fmGet fm "pin" else none }

-- ===== Backlink Resolver (src/utils/backlinks.ts) =====

/-- A markdown file of the vault, as seen by the resolver: Obsidian exposes
the full path, the file name with extension, the base name, and the file's
raw content. -/
structure VFile where
  path : String
  name : String
  basename : String
  content : String
  deriving DecidableEq, Repr

/-- `findFileByName`: exact match on base name, path, or path with `.md`
appended; then a case-insensitive fallback on base name / file name. -/
def findFileByName (name : String) (vault : List VFile) : Option VFile :=
  match vault.find? (fun f => f.basename = name ∨ f.path = name ∨ f.path = name ++ ".md") with
  | some f => some f
  | none =>
    let ln := lowerS name
    vault.find? (fun f => lowerS f.basename = ln ∨ lowerS f.name = ln ++ ".md")

/-- One match of the backlink pattern `\[\[([^\]|]+)(?:\|([^\]]+))?\]\]`:
the full matched text and the two captures. -/
structure RefMatch where
  full : List Char
  target : List Char
  display : Option (List Char)
  deriving DecidableEq, Repr

/-- Characters allowed in the target capture `[^\]|]`. -/
def targetChar (c : Char) : Bool := ¬(c = ']' ∨ c = '|')

/-- Characters allowed in the display capture `[^\]]`. -/
def displayChar (c : Char) : Bool := ¬(c = ']')

/-- Two-character closing delimiter check: the list starts with `]]`. -/
def closeBrackets (l : List Char) : Option (List Char) :=
  match l with
  | a :: b :: rem => if a = ']' ∧ b = ']' then some rem else none
  | _ => none

/-- The display part of the backlink pattern, after `[[target|`: the greedy
display capture followed by the closing `]]`. -/
def matchDisp (target rest2 : List Char) : Option (RefMatch × List Char) :=
  if rest2.takeWhile displayChar = [] then none
  else
    match closeBrackets (rest2.drop (rest2.takeWhile displayChar).length) with
    | some rem =>
      some ({ full := '[' :: '[' :: (target ++ '|' ::
                (rest2.takeWhile displayChar ++ [']', ']'])),
              target := target, display := some (rest2.takeWhile displayChar) }, rem)
    | none => none

/-- Continuation of the backlink pattern after the opening `[[`: the greedy
target capture, then either the closing `]]` or `|` and the display part.
The character classes of the pattern exclude its delimiters, so greedy
matching needs no backtracking and the match is unique. -/
def matchTail (rest : List Char) : Option (RefMatch × List Char) :=
  if rest.takeWhile targetChar = [] then none
  else
    match rest.drop (rest.takeWhile targetChar).length with
    | [] => none
    | a :: after =>
      if a = '|' then matchDisp (rest.takeWhile targetChar) after
      else
        match closeBrackets (a :: after) with
        | some rem =>
          some ({ full := '[' :: '[' :: (rest.takeWhile targetChar ++ [']', ']']),
                  target := rest.takeWhile targetChar, display := none }, rem)
        | none => none

/-- Try to match the backlink pattern at the head of the character list,
returning the match and the remaining characters. -/
def matchAt (cs : List Char) : Option (RefMatch × List Char) :=
  match cs with
  | a :: b :: rest => if a = '[' ∧ b = '[' then matchTail rest else none
  | _ => none

/-- Find the leftmost match: the gap before it, the match, and the rest. -/
def findRef : List Char → Option (List Char × RefMatch × List Char)
  | [] => none
  | c :: cs' =>
    match matchAt (c :: cs') with
    | some (m, rest) => some ([], m, rest)
    | none => (findRef cs').map (fun p => (c :: p.1, p.2.1, p.2.2))

/-- Repeated leftmost matching (the `exec` loop with the `g` flag): the list
of (gap, match) pairs and the final gap.  The fuel bounds the number of
matches; each match consumes at least one character, so `length + 1` fuel is
always enough. -/
def scanAux (fuel : Nat) (cs : List Char) : List (List Char × RefMatch) × List Char :=
  match fuel with
  | 0 => ([], cs)
  | fuel' + 1 =>
    match findRef cs with
    | none => ([], cs)
    | some (g, m, rest) =>
      let (ps, fin) := scanAux fuel' rest
      ((g, m) :: ps, fin)

/-- All backlink references of a body, in order. -/
def scanRefs (cs : List Char) : List (List Char × RefMatch) × List Char :=
  scanAux (cs.length + 1) cs

/-- Per-reference entry of the debug conversions trace. -/
structure ConvTrace where
  link : String
  file : Option String := none
  contentType : Option String := none
  categoryValue : Option String := none
  resolvedCategorySlug : Option String := none
  finalUrl : Option String := none
  error : Option String := none
  deriving DecidableEq, Repr

structure BacklinkError where
  link : String
  reason : String
  deriving DecidableEq, Repr

structure BacklinkDebugInfo where
  categoriesLoaded : Nat
  categories : List Category
  conversions : List ConvTrace
  deriving DecidableEq, Repr

structure BacklinkConversionResult where
  text : String
  errors : List BacklinkError
  debug : BacklinkDebugInfo
  deriving DecidableEq, Repr

/-- `buildNoteUrl`: `{siteUrl}/notes/{nid}` where `nid` is
`frontmatter.id || frontmatter.nid`; a falsy identifier (absent, zero or
empty) is an error. -/
def buildNoteUrl (fm : Frontmatter) (siteUrl linkName : String) : Except String String :=
  let nid := if optTruthy (fmGet fm "id") then fmGet fm "id" else fmGet fm "nid"
  if ¬ optTruthy nid then
    .error ("Note \"" ++ linkName ++ "\" is missing nid/id field")
  else
    .ok (siteUrl ++ "/notes/" ++ (nid.getD (.str "")).toStr)

/-- `buildPostUrlWithDebug`: `{siteUrl}/posts/{categorySlug}/{slug}`.
The category value (`categories || categorySlug`) is resolved against the
cached category list by slug, then by name; otherwise a truthy `categoryId`
is resolved by id.  Returns the result together with the `categoryValue` and
`resolvedCategorySlug` debug fields. -/
def buildPostUrlWithDebug (fm : Frontmatter) (siteUrl linkName : String)
    (cache : Option (List Category)) :
    Except String String × Option String × Option String :=
  let categoryValue := if optTruthy (fmGet fm "categories") then fmGet fm "categories"
                       else fmGet fm "categorySlug"
  let categoryId := fmGet fm "categoryId"
  let debugCatValue : Option String :=
    match categoryValue with
    | some (.str s) => some s
    | _ => match categoryId with
           | some (.str s) => some s
           | _ => none
  let cats := cache.getD []
  let step : Except String String × Option String :=
    if optTruthy categoryValue then
      let cv := categoryValue.getD (.str "")
      match cats.find? (fun c => vEqS cv c.slug) with
      | some bySlug => (.ok bySlug.slug, some (bySlug.slug ++ " (matched by slug)"))
      | none =>
        match cats.find? (fun c => vEqS cv c.name) with
        | some byName =>
          (.ok byName.slug,
           some (byName.slug ++ " (matched by name \"" ++ byName.name ++ "\")"))
        | none =>
          (.error (categoryNotFoundMsg cv cats),
           some ("NOT FOUND in " ++ toString cats.length ++ " categories"))
    else if optTruthy categoryId then
      let cid := categoryId.getD (.str "")
      match cats.find? (fun c => vEqS cid c.id) with
      | some byId => (.ok byId.slug, some (byId.slug ++ " (matched by id)"))
      | none =>
        (.error ("Category with id \"" ++ cid.toStr ++ "\" not found"),
         some ("NOT FOUND by id " ++ cid.toStr))
    else (.ok "", none)
  match step.1 with
  | .error e => (.error e, debugCatValue, step.2)
  | .ok categorySlug =>
    if categorySlug = "" then
      (.error ("Post \"" ++ linkName ++ "\" is missing category field"), debugCatValue, step.2)
    else
      let slug := fmGet fm "slug"
      if ¬ optTruthy slug then
        (.error ("Post \"" ++ linkName ++ "\" is missing slug field"), debugCatValue, step.2)
      else
        (.ok (siteUrl ++ "/posts/" ++ categorySlug ++ "/" ++ (slug.getD (.str "")).toStr),
         debugCatValue, step.2)

/-- `resolveBacklinkUrlWithDebug`: find the target file, require a remote
object id, classify it, and build the note or post URL; the trace records
what was learned along the way. -/
def resolveBacklinkWithDebug (linkName siteUrl : String) (vault : List VFile)
    (cache : Option (List Category)) : Except String String × ConvTrace :=
  let tr0 : ConvTrace := { link := linkName }
  match findFileByName linkName vault with
  | none => (.error ("File not found: \"" ++ linkName ++ "\""), tr0)
  | some file =>
    let tr1 := { tr0 with file := some file.path }
    let fm := (parseFrontmatter file.content).frontmatter
    if ¬ optTruthy (fmGet fm "oid") then
      (.error ("File \"" ++ linkName ++ "\" is not published (missing oid)"), tr1)
    else
      match detectContentType fm with
      | .note =>
        (buildNoteUrl fm siteUrl linkName, { tr1 with contentType := some "note" })
      | .post =>
        let (res, cv, rcs) := buildPostUrlWithDebug fm siteUrl linkName cache
        (res, { tr1 with contentType := some "post", categoryValue := cv,
                         resolvedCategorySlug := rcs })

/-- The visible label of a converted link: the trimmed display text when
given and non-blank, else the trimmed target. -/
def refLabel (m : RefMatch) : String :=
  let linkName := trimS ⟨m.target⟩
  match m.display with
  | some d => if trimL d = [] then linkName else ⟨trimL d⟩
  | none => linkName

/-- Process one reference: a successful resolution yields a replacement pair
(matched text, markdown link), a failure yields an error record; both yield
a trace entry. -/
def processRef (siteUrl : String) (vault : List VFile) (cache : Option (List Category))
    (p : List Char × RefMatch) :
    Option (List Char × List Char) × Option BacklinkError × ConvTrace :=
  let m := p.2
  let linkName := trimS ⟨m.target⟩
  let (res, tr) := resolveBacklinkWithDebug linkName siteUrl vault cache
  match res with
  | .ok url =>
    (some (m.full, ("[" ++ refLabel m ++ "](" ++ url ++ ")").data),
     none, { tr with finalUrl := some url })
  | .error reason =>
    (none, some { link := linkName, reason := reason }, { tr with error := some reason })

/-- `convertBacklinks`: fetch the category cache when an API client is
supplied, pass the text through unchanged when no site URL is configured,
and otherwise resolve every reference, collect all errors and traces, and
apply the successful replacements by first-occurrence substitution in match
order. -/
def convertBacklinks (text siteUrl : String) (vault : List VFile)
    (api? : Option (List Category)) : BacklinkConversionResult :=
  let cache := api?
  let debug0 : BacklinkDebugInfo :=
    match api? with
    | some cs => { categoriesLoaded := cs.length, categories := cs, conversions := [] }
    | none => { categoriesLoaded := 0, categories := [], conversions := [] }
  if siteUrl = "" then { text := text, errors := [], debug := debug0 }
  else
    let pairs := (scanRefs text.data).1
    let steps := pairs.map (processRef siteUrl vault cache)
    let errors := steps.filterMap (fun s => s.2.1)
    let traces := steps.map (fun s => s.2.2)
    let reps := steps.filterMap (fun s => s.1)
    let out := reps.foldl (fun acc fr => replaceFirstL acc fr.1 fr.2) text.data
    { text := ⟨out⟩, errors := errors, debug := { debug0 with conversions := traces } }

-- ===== Remote Client request wrapper (src/api.ts) =====

/-- The parsed JSON body of a response, as far as the client inspects it:
an optional error `message` field plus the remaining payload (opaque). -/
structure JsonBody where
  message : Option String := none
  raw : String := ""
  deriving DecidableEq, Repr

/-- A transport response: status code, parsed JSON body when the body was
JSON, and the raw text. -/
structure HttpResponse where
  status : Nat
  json : Option JsonBody := none
  text : String := ""
  deriving DecidableEq, Repr

/-- `MixSpaceAPI.request` result handling: a status of at least 400 raises
an error whose message is `response.json?.message || response.text ||
"HTTP {status}"`; otherwise the parsed JSON is returned. -/
def requestResult (resp : HttpResponse) : Except String (Option JsonBody) :=
  if resp.status ≥ 400 then
    .error
      (match resp.json.bind (·.message) with
       | some m => if m ≠ "" then m
                   else if resp.text ≠ "" then resp.text
                   else "HTTP " ++ toString resp.status
       | none => if resp.text ≠ "" then resp.text
                 else "HTTP " ++ toString resp.status)
  else .ok resp.json

-- ===== Synchronization Orchestrator (src/main.ts) =====

structure Profile where
  apiEndpoint : String
  token : String
  siteUrl : String
  deriving DecidableEq, Repr

structure NoteResponse where
  id : String
  nid : Int
  title : String
  deriving DecidableEq, Repr

structure PostResponse where
  id : String
  slug : String
  categoryId : String
  title : String
  deriving DecidableEq, Repr

/-- Externally visible actions of one orchestrator invocation, in order:
user notices, remote calls, and frontmatter write-backs (the latter carry
the resulting frontmatter map). -/
inductive Effect where
  | notice (msg : String)
  | fetchCategories
  | createNote (p : NotePayload)
  | updateNote (oid : String) (p : NotePayload)
  | createPost (p : PostPayload)
  | updatePost (oid : String) (p : PostPayload)
  | deleteNote (oid : String)
  | deletePost (oid : String)
  | writeFrontmatter (path : String) (fm : Frontmatter)
  deriving DecidableEq, Repr

/-- Remote create/update calls (the publish mutations). -/
def Effect.isCreateOrUpdate : Effect → Bool
  | .createNote _ => true
  | .updateNote _ _ => true
  | .createPost _ => true
  | .updatePost _ _ => true
  | _ => false

/-- Any remote call. -/
def Effect.isRemote : Effect → Bool
  | .createNote _ => true
  | .updateNote _ _ => true
  | .createPost _ => true
  | .updatePost _ _ => true
  | .deleteNote _ => true
  | .deletePost _ => true
  | .fetchCategories => true
  | _ => false

/-- Frontmatter write-back. -/
def Effect.isWriteFm : Effect → Bool
  | .writeFrontmatter _ _ => true
  | _ => false

/-- `Object.assign(frontmatter, updates)` inside `processFrontMatter`. -/
def mergeFrontmatter (fm : Frontmatter) (updates : Frontmatter) : Frontmatter :=
  updates.foldl (fun acc p => fmSet acc p.1 p.2) fm

/-- The environment of one invocation: active file, profile, vault, the
remote category list, the responses the remote service would give, and the
current timestamp. -/
structure PubEnv where
  activeFile : Option VFile
  profile : Profile
  vault : List VFile
  cats : List Category
  noteResp : NoteResponse
  postResp : PostResponse
  now : String
  deriving Repr

/-- The notice shown when backlink conversion fails. -/
def backlinkFailNotice (errors : List BacklinkError) : String :=
  "Backlink conversion failed:\n" ++
    String.intercalate "\n" (errors.map (fun e => "[[" ++ e.link ++ "]]: " ++ e.reason))

/-- `publishCurrent`: read the active file, parse, classify, resolve
backlinks (aborting on any error), build the payload, issue exactly one
create or update call, and write the returned identifiers back into the
frontmatter. -/
def publishCurrent (env : PubEnv) : List Effect :=
  match env.activeFile with
  | none => [.notice "No active file"]
  | some file =>
    if env.profile.apiEndpoint = "" ∨ env.profile.token = "" then
      [.notice "Please configure API endpoint and token in settings"]
    else
      let parsed := parseFrontmatter file.content
      let fm := parsed.frontmatter
      let contentType := detectContentType fm
      let existingId := fmGet fm "oid"
      let isUpdate := optTruthy existingId
      let conv := convertBacklinks parsed.body env.profile.siteUrl env.vault (some env.cats)
      Effect.fetchCategories ::
      (if conv.errors ≠ [] then
        [.notice (backlinkFailNotice conv.errors)]
      else
        match contentType with
        | .note =>
          let payload := buildNotePayload fm conv.text file.basename
          [.notice (if isUpdate then "Updating note..." else "Creating note...")] ++
          (if isUpdate then [.updateNote (existingId.getD (.str "")).toStr payload]
           else [.createNote payload]) ++
          [.writeFrontmatter file.path
             (mergeFrontmatter fm
               [("oid", .str env.noteResp.id), ("id", .num env.noteResp.nid),
                ("updated", .str env.now), ("type", .str "note")]),
           .notice ("Note " ++ (if isUpdate then "updated" else "created") ++ ": " ++
                    env.noteResp.title)]
        | .post =>
          match buildPostPayload fm conv.text file.basename env.cats with
          | .error e => [.notice ("Failed: " ++ e)]
          | .ok payload =>
            [.notice (if isUpdate then "Updating post..." else "Creating post...")] ++
            (if isUpdate then [.updatePost (existingId.getD (.str "")).toStr payload]
             else [.createPost payload]) ++
            [.writeFrontmatter file.path
               (mergeFrontmatter fm
                 [("oid", .str env.postResp.id), ("slug", .str env.postResp.slug),
                  ("categoryId", .str env.postResp.categoryId),
                  ("updated", .str env.now), ("type", .str "post")]),
             .notice ("Post " ++ (if isUpdate then "updated" else "created") ++ ": " ++
                      env.postResp.title)])

/-- The synchronization-specific frontmatter keys stripped on delete/unlink. -/
def syncKeys : List String := ["oid", "id", "slug", "categoryId", "updated"]

/-- `clearMixSpaceFrontmatter`: delete the synchronization keys, keep
everything else (in particular `type`). -/
def clearMixSpaceFrontmatter (fm : Frontmatter) : Frontmatter :=
  fm.filter (fun p => ¬ p.1 ∈ syncKeys)

/-- `unlinkFromMixSpace`: local cleanup only — no remote call. -/
def unlinkFromMixSpace (env : PubEnv) : List Effect :=
  match env.activeFile with
  | none => [.notice "No active file"]
  | some file =>
    let fm := (parseFrontmatter file.content).frontmatter
    if ¬ optTruthy (fmGet fm "oid") then
      [.notice "This file is not linked to Mix Space"]
    else
      [.writeFrontmatter file.path (clearMixSpaceFrontmatter fm),
       .notice "File unlinked from Mix Space (remote content preserved)"]

/-- The confirmed path of `deleteFromMixSpace` (after the guards and the
user's confirmation): remote delete, then the same local cleanup. -/
def deleteFromMixSpaceConfirmed (env : PubEnv) : List Effect :=
  match env.activeFile with
  | none => [.notice "No active file"]
  | some file =>
    if env.profile.apiEndpoint = "" ∨ env.profile.token = "" then
      [.notice "Please configure API endpoint and token in settings"]
    else
      let fm := (parseFrontmatter file.content).frontmatter
      if ¬ optTruthy (fmGet fm "oid") then
        [.notice "This file is not linked to Mix Space"]
      else
        let oid := ((fmGet fm "oid").getD (.str "")).toStr
        let contentType := detectContentType fm
        (match contentType with
         | .note => [Effect.deleteNote oid]
         | .post => [Effect.deletePost oid]) ++
        [.writeFrontmatter file.path (clearMixSpaceFrontmatter fm),
         .notice ((match contentType with
                   | .note => "Note"
                   | .post => "Post") ++ " deleted from Mix Space")]

-- ===== Concrete fixtures used by witnesses and counterexamples =====

/-- A published note target: `oid` present, numeric id 42. -/
def fileB : VFile :=
  { path := "b.md", name := "b.md", basename := "b",
    content := "---\noid: abc123\nid: 42\n---\nhello" }

/-- A published note target whose stored numeric id is 0 and which has no
`nid` field. -/
def fileZero : VFile :=
  { path := "z.md", name := "z.md", basename := "z",
    content := "---\noid: abc123\nid: 0\n---\nhello" }

-- ===== Helper lemmas =====

theorem fmGet_clear (fm : Frontmatter) (k : String) :
    fmGet (clearMixSpaceFrontmatter fm) k =
      if k ∈ syncKeys then none else fmGet fm k := by
  induction fm with
  | nil => simp [clearMixSpaceFrontmatter, fmGet]
  | cons p fm ih =>
    by_cases hk : p.1 ∈ syncKeys
    · by_cases hpk : p.1 = k
      · subst hpk
        simp [clearMixSpaceFrontmatter, fmGet, hk] at ih ⊢
        simpa [hk] using ih
      · simp only [clearMixSpaceFrontmatter, List.filter_cons] at ih ⊢
        simp only [hk, decide_True, not_true_eq_false, decide_False, Bool.false_eq_true,
          if_false]
        rw [ih]
        by_cases hks : k ∈ syncKeys
        · simp [hks]
        · simp [hks, fmGet, List.find?_cons, hpk]
    · simp only [clearMixSpaceFrontmatter, List.filter_cons] at ih ⊢
      simp only [hk, decide_False, not_false_eq_true, decide_True, if_true]
      by_cases hpk : p.1 = k
      · subst hpk
        simp [fmGet, List.find?_cons, hk]
      · rw [fmGet, List.find?_cons]
        have hne : ¬ (p.1 = k) := hpk
        simp only [hne, decide_False]
        rw [fmGet] at ih
        rw [ih]
        by_cases hks : k ∈ syncKeys
        · simp [hks]
        · simp [hks, fmGet, List.find?_cons, hne]

theorem string_head_append (s t : String) (c : Char) (rest : List Char)
    (h : s.data = c :: rest) : (s ++ t).data.head? = some c := by
  rw [String.data_append, h]
  rfl

-- ===== C3 =====

/-- C3: for every frontmatter map, body and display name, the `title` of the
payload built by `buildNotePayload`, and of any payload successfully built
by `buildPostPayload`, is the caller-supplied display name, never the
frontmatter's own `title` field. -/
theorem spec_c3 (fm : Frontmatter) (body fileName : String) (cats : List Category)
    (p : PostPayload) :
    (buildNotePayload fm body fileName).title = fileName ∧
    (buildPostPayload fm body fileName cats = .ok p → p.title = fileName) := by
  refine ⟨rfl, ?_⟩
  intro h
  unfold buildPostPayload at h
  split at h
  · exact absurd h (by simp)
  · split at h
    · exact absurd h (by simp)
    · simp only [Except.ok.injEq] at h
      rw [← h]

/-- Witness for C3 at a concrete input. -/
theorem spec_c3_witness :
    (buildNotePayload [("title", FmValue.str "ignored")] "b" "T").title = "T" ∧
    (buildPostPayload [("categoryId", FmValue.str "c1")] "b" "T" [] =
      .ok { title := "T", text := "b", slug := FmValue.str "t",
            categoryId := FmValue.str "c1" } ∧
      ({ title := "T", text := "b", slug := FmValue.str "t",
         categoryId := FmValue.str "c1" } : PostPayload).title = "T") :=
  ⟨(spec_c3 [("title", FmValue.str "ignored")] "b" "T" []
      { title := "T", text := "b", slug := FmValue.str "t",
        categoryId := FmValue.str "c1" }).1,
   by rfl,
   (spec_c3 [("categoryId", FmValue.str "c1")] "b" "T" []
      { title := "T", text := "b", slug := FmValue.str "t",
        categoryId := FmValue.str "c1" }).2 (by rfl)⟩

-- ===== C5 =====

/-- C5: a frontmatter category name/slug that matches no remote category
(with no truthy direct id) fails with the error enumerating every category
as `name(slug)`; the empty list renders as `none`; missing both id and name
fails with the distinct missing-category error; success gives a truthy
(non-empty) `categoryId`. -/
theorem spec_c5 (fm : Frontmatter) (body fileName : String) (cats : List Category) :
    (optTruthy (fmGet fm "categoryId") = false → optTruthy (fmGet fm "categories") = true →
      getCategoryByNameOrSlug cats ((fmGet fm "categories").getD (.str "")) = none →
      buildPostPayload fm body fileName cats =
        .error (categoryNotFoundMsg ((fmGet fm "categories").getD (.str "")) cats)) ∧
    (∀ v : FmValue, categoryNotFoundMsg v [] =
      "Category not found: \"" ++ v.toStr ++ "\". Available: [none]") ∧
    (∀ v : FmValue, ∀ cs : List Category, missingCategoryMsg ≠ categoryNotFoundMsg v cs) ∧
    (optTruthy (fmGet fm "categoryId") = false → optTruthy (fmGet fm "categories") = false →
      buildPostPayload fm body fileName cats = .error missingCategoryMsg) ∧
    (∀ p : PostPayload, buildPostPayload fm body fileName cats = .ok p →
      p.categoryId.truthy = true) := by
  refine ⟨?_, ?_, ?_, ?_, ?_⟩
  · intro hid hcat hnone
    unfold buildPostPayload resolveCategoryId
    rw [if_pos (by simp [hid, hcat]), hnone]
  · intro v
    apply String.ext
    simp [categoryNotFoundMsg, String.data_append, List.append_assoc]
    decide
  · intro v cs h
    have hh : missingCategoryMsg.data.head? = (categoryNotFoundMsg v cs).data.head? := by
      rw [h]
    have h1 : missingCategoryMsg.data.head? = some 'P' := by decide
    have h2 : (categoryNotFoundMsg v cs).data.head? = some 'C' := by
      unfold categoryNotFoundMsg
      apply string_head_append
      rfl
    rw [h1, h2] at hh
    exact absurd hh (by decide)
  · intro hid hcat
    unfold buildPostPayload resolveCategoryId
    rw [if_neg (by simp [hcat])]
    simp [hid]
  · intro p h
    unfold buildPostPayload at h
    split at h
    · exact absurd h (by simp)
    · rename_i cid hr
      split at h
      · exact absurd h (by simp)
      · rename_i htr
        simp only [Except.ok.injEq] at h
        rw [← h]
        simp only [Bool.not_eq_true] at htr
        cases cid with
        | none => simp [optTruthy] at htr
        | some v =>
          simp only [optTruthy, Bool.not_eq_false] at htr
          simpa using htr

/-- Witness for C5 at concrete inputs. -/
theorem spec_c5_witness :
    (buildPostPayload [("categories", FmValue.str "nope")] "b" "T"
        [{ id := "c1", name := "Tech", slug := "tech" }] =
      .error "Category not found: \"nope\". Available: [Tech(tech)]") ∧
    (buildPostPayload [("categories", FmValue.str "nope")] "b" "T" [] =
      .error "Category not found: \"nope\". Available: [none]") ∧
    (buildPostPayload [] "b" "T" [] = .error missingCategoryMsg) ∧
    (FmValue.truthy (FmValue.str "c1") = true) := by
  refine ⟨?_, ?_, ?_, ?_⟩
  · have h := (spec_c5 [("categories", FmValue.str "nope")] "b" "T"
      [{ id := "c1", name := "Tech", slug := "tech" }]).1 (by rfl) (by rfl) (by rfl)
    rw [h]; rfl
  · have h := (spec_c5 [("categories", FmValue.str "nope")] "b" "T" []).1
      (by rfl) (by rfl) (by rfl)
    rw [h]; rfl
  · exact (spec_c5 [] "b" "T" []).2.2.2.1 (by rfl) (by rfl)
  · have h := (spec_c5 [("categoryId", FmValue.str "c1")] "b" "T" []).2.2.2.2
      { title := "T", text := "b", slug := FmValue.str "t",
        categoryId := FmValue.str "c1" } (by rfl)
    exact h

-- ===== C8 =====

/-- C8 counterexample: a 304 response is not in the 2xx range, yet the
request wrapper raises no error and returns the parsed JSON. -/
theorem spec_c8_counterexample :
    requestResult { status := 304, json := some { message := some "m" }, text := "t" } =
      .ok (some { message := some "m", raw := "" }) ∧
    ¬ (200 ≤ 304 ∧ 304 < 300) := by
  exact ⟨by rfl, by decide⟩

/-- C8 (amended): a status of at least 400 raises an error whose message is
the JSON body's non-empty `message` field, else the non-empty raw text, else
`"HTTP {status}"`; every response with status below 400 (in particular every
2xx) raises no error and returns the parsed JSON. -/
theorem spec_c8 (resp : HttpResponse) :
    (400 ≤ resp.status →
      (∀ m, resp.json.bind (·.message) = some m → m ≠ "" →
        requestResult resp = .error m) ∧
      ((resp.json.bind (·.message) = none ∨ resp.json.bind (·.message) = some "") →
        resp.text ≠ "" → requestResult resp = .error resp.text) ∧
      ((resp.json.bind (·.message) = none ∨ resp.json.bind (·.message) = some "") →
        resp.text = "" →
        requestResult resp = .error ("HTTP " ++ toString resp.status))) ∧
    (resp.status < 400 → requestResult resp = .ok resp.json) := by
  constructor
  · intro h4
    refine ⟨?_, ?_, ?_⟩
    · intro m hm hne
      unfold requestResult
      rw [if_pos h4, hm]
      simp [hne]
    · intro hm ht
      unfold requestResult
      rw [if_pos h4]
      rcases hm with hm | hm <;> rw [hm] <;> simp [ht]
    · intro hm ht
      unfold requestResult
      rw [if_pos h4]
      rcases hm with hm | hm <;> rw [hm] <;> simp [ht]
  · intro hlt
    unfold requestResult
    rw [if_neg (by omega)]

/-- Witness for C8 at concrete responses. -/
theorem spec_c8_witness :
    (requestResult { status := 404, json := some { message := some "boom" }, text := "raw" } =
      .error "boom") ∧
    (requestResult { status := 500, json := none, text := "raw" } = .error "raw") ∧
    (requestResult { status := 502, json := none, text := "" } = .error "HTTP 502") ∧
    (requestResult { status := 200, json := some { message := none }, text := "" } =
      .ok (some { message := none, raw := "" })) :=
  ⟨((spec_c8 { status := 404, json := some { message := some "boom" }, text := "raw" }).1
      (by decide)).1 "boom" (by rfl) (by decide),
   ((spec_c8 { status := 500, json := none, text := "raw" }).1
      (by decide)).2.1 (Or.inl (by rfl)) (by decide),
   ((spec_c8 { status := 502, json := none, text := "" }).1
      (by decide)).2.2 (Or.inl (by rfl)) (by rfl),
   (spec_c8 { status := 200, json := some { message := none }, text := "" }).2 (by decide)⟩

-- ===== C9 =====

/-- C9: the local cleanup used by deletion and unlink removes exactly the
synchronization keys (`oid`, `id`, `slug`, `categoryId`, `updated`) and
leaves every other key — in particular `type` — unchanged; unlink performs
the cleanup without any remote call, and the confirmed deletion flow writes
back the same cleaned map. -/
theorem spec_c9 (fm : Frontmatter) (env : PubEnv) (file : VFile)
    (hf : env.activeFile = some file)
    (he : ¬ (env.profile.apiEndpoint = "" ∨ env.profile.token = ""))
    (hoid : optTruthy (fmGet (parseFrontmatter file.content).frontmatter "oid") = true) :
    (∀ k ∈ syncKeys, fmGet (clearMixSpaceFrontmatter fm) k = none) ∧
    (∀ k, k ∉ syncKeys → fmGet (clearMixSpaceFrontmatter fm) k = fmGet fm k) ∧
    (∀ env' : PubEnv, ∀ e ∈ unlinkFromMixSpace env', e.isRemote = false) ∧
    (unlinkFromMixSpace env =
      [.writeFrontmatter file.path
         (clearMixSpaceFrontmatter (parseFrontmatter file.content).frontmatter),
       .notice "File unlinked from Mix Space (remote content preserved)"]) ∧
    (Effect.writeFrontmatter file.path
       (clearMixSpaceFrontmatter (parseFrontmatter file.content).frontmatter) ∈
       deleteFromMixSpaceConfirmed env) := by
  refine ⟨?_, ?_, ?_, ?_, ?_⟩
  · intro k hk
    rw [fmGet_clear, if_pos hk]
  · intro k hk
    rw [fmGet_clear, if_neg hk]
  · intro env' e he'
    unfold unlinkFromMixSpace at he'
    rcases henv : env'.activeFile with _ | file'
    · rw [henv] at he'
      simp at he'
      subst he'
      rfl
    · rw [henv] at he'
      by_cases h : optTruthy (fmGet (parseFrontmatter file'.content).frontmatter "oid") = true
      · simp [h] at he'
        rcases he' with he' | he' <;> subst he' <;> rfl
      · simp [h] at he'
        subst he'
        rfl
  · unfold unlinkFromMixSpace
    rw [hf]
    simp [hoid]
  · unfold deleteFromMixSpaceConfirmed
    rw [hf]
    rcases hct : detectContentType (parseFrontmatter file.content).frontmatter <;>
      simp [he, hoid, hct]

/-- Witness for C9 at a concrete environment. -/
theorem spec_c9_witness :
    (fmGet (clearMixSpaceFrontmatter
      [("oid", FmValue.str "x"), ("type", FmValue.str "note"),
       ("extra", FmValue.num 7)]) "oid" = none) ∧
    (fmGet (clearMixSpaceFrontmatter
      [("oid", FmValue.str "x"), ("type", FmValue.str "note"),
       ("extra", FmValue.num 7)]) "type" =
      fmGet [("oid", FmValue.str "x"), ("type", FmValue.str "note"),
             ("extra", FmValue.num 7)] "type") ∧
    (unlinkFromMixSpace
      { activeFile := some fileB,
        profile := { apiEndpoint := "https://api", token := "t", siteUrl := "https://s" },
        vault := [fileB], cats := [],
        noteResp := { id := "i", nid := 1, title := "t" },
        postResp := { id := "i", slug := "s", categoryId := "c", title := "t" },
        now := "2024" } =
      [.writeFrontmatter "b.md"
         (clearMixSpaceFrontmatter (parseFrontmatter fileB.content).frontmatter),
       .notice "File unlinked from Mix Space (remote content preserved)"]) := by
  have h := spec_c9
    [("oid", FmValue.str "x"), ("type", FmValue.str "note"), ("extra", FmValue.num 7)]
    { activeFile := some fileB,
      profile := { apiEndpoint := "https://api", token := "t", siteUrl := "https://s" },
      vault := [fileB], cats := [],
      noteResp := { id := "i", nid := 1, title := "t" },
      postResp := { id := "i", slug := "s", categoryId := "c", title := "t" },
      now := "2024" }
    fileB rfl (by decide) (by rfl)
  exact ⟨h.1 "oid" (by decide), h.2.1 "type" (by decide), h.2.2.2.1⟩

-- ===== C10 =====

/-- C10: a Note target carrying a remote object id whose stored numeric id
is 0 (and no `nid`) yields a missing-identifier error — the presence check
treats 0 as absent — and `convertBacklinks` records that error instead of
producing `{siteBaseUrl}/notes/0`. -/
theorem spec_c10 (fm : Frontmatter) (siteUrl linkName : String)
    (hid : fmGet fm "id" = some (.num 0)) (hnid : fmGet fm "nid" = none) :
    buildNoteUrl fm siteUrl linkName =
      .error ("Note \"" ++ linkName ++ "\" is missing nid/id field") ∧
    (convertBacklinks "see [[z]]" "https://example.com" [fileZero] (some [])).errors =
      [{ link := "z", reason := "Note \"z\" is missing nid/id field" }] ∧
    (convertBacklinks "see [[z]]" "https://example.com" [fileZero] (some [])).text =
      "see [[z]]" := by
  refine ⟨?_, by rfl, by rfl⟩
  unfold buildNoteUrl
  rw [hid, hnid]
  rfl

/-- Witness for C10 at a concrete frontmatter map. -/
theorem spec_c10_witness :
    buildNoteUrl [("oid", FmValue.str "a"), ("id", FmValue.num 0)] "https://e" "z" =
      .error ("Note \"" ++ "z" ++ "\" is missing nid/id field") :=
  (spec_c10 [("oid", FmValue.str "a"), ("id", FmValue.num 0)] "https://e" "z"
    (by rfl) (by rfl)).1

-- ===== C4 =====

/-- Substring occurrence test (anywhere in the list). -/
def containsSub (pat : List Char) : List Char → Bool
  | [] => prefixAt pat []
  | c :: cs => prefixAt pat (c :: cs) || containsSub pat cs

theorem splitOnFirst_eq_none_of (pat cs : List Char)
    (h : containsSub pat cs = false) : splitOnFirst pat cs = none := by
  induction cs with
  | nil =>
    unfold containsSub at h
    unfold splitOnFirst
    rw [if_neg (by simp [h])]
  | cons c cs ih =>
    unfold containsSub at h
    rw [Bool.or_eq_false_iff] at h
    unfold splitOnFirst
    rw [if_neg (by simp [h.1])]
    show ((splitOnFirst pat cs).map (fun p => (c :: p.1, p.2))) = none
    rw [ih h.2]
    rfl

/-- C4 counterexample: the input below has its opening marker line
immediately followed by the closing marker line, yet `parse` finds a later
closing marker and returns body `"def"`, not the whole input. -/
theorem spec_c4_counterexample :
    parseFrontmatter "---\n---\nabc\n---\ndef" =
      { frontmatter := [], body := "def" } ∧
    ("def" : String) ≠ "---\n---\nabc\n---\ndef" :=
  ⟨by rfl, by decide⟩

/-- C4 (amended): when the opening marker line is immediately followed by
the closing marker line and no later `"\n---"` occurrence exists in the
text after the opening marker, `parse` returns the entire original input
unchanged as the body with an empty frontmatter map (and raises no error —
the function is total). -/
theorem spec_c4 (tail : List Char)
    (hline : tail = [] ∨ ∃ r, tail = '\n' :: r)
    (hno : containsSub "\n---".data ("---".data ++ tail) = false) :
    parseFrontmatter ⟨"---\n---".data ++ tail⟩ =
      { frontmatter := [], body := ⟨"---\n---".data ++ tail⟩ } := by
  have hm : matchHeader ("---\n---".data ++ tail) = none := by
    unfold matchHeader
    rw [if_pos (show prefixAt "---\n".data ("---\n---".data ++ tail) = true from rfl)]
    rw [show (("---\n---".data ++ tail) : List Char).drop 4 = "---".data ++ tail from rfl]
    rw [splitOnFirst_eq_none_of _ _ hno]
  unfold parseFrontmatter
  rw [show (⟨"---\n---".data ++ tail⟩ : String).data = "---\n---".data ++ tail from rfl, hm]

/-- Witness for C4 at the repository's own test input. -/
theorem spec_c4_witness :
    parseFrontmatter ⟨"---\n---".data ++ ('\n' :: "Body content".data)⟩ =
      { frontmatter := [],
        body := ⟨"---\n---".data ++ ('\n' :: "Body content".data)⟩ } :=
  spec_c4 ('\n' :: "Body content".data) (Or.inr ⟨"Body content".data, rfl⟩) (by decide)

-- ===== C2 =====

theorem processRef_none_iff (siteUrl : String) (vault : List VFile)
    (cache : Option (List Category)) (p : List Char × RefMatch) :
    (processRef siteUrl vault cache p).2.1 = none ↔
      ∃ url, (resolveBacklinkWithDebug (trimS ⟨p.2.target⟩) siteUrl vault cache).1 =
        .ok url := by
  unfold processRef
  rcases h : resolveBacklinkWithDebug (trimS ⟨p.2.target⟩) siteUrl vault cache with ⟨res, tr⟩
  simp only [h]
  cases res with
  | ok u => simpa using ⟨u, rfl⟩
  | error r => simp

/-- C2: with a site URL configured, the errors list is empty iff every
reference in the body resolved successfully; all references are attempted,
every failing reference contributes exactly its error record (the errors
list is the filter-map of the per-reference outcomes over all references in
order), and every reference contributes one debug trace entry. -/
theorem spec_c2 (text siteUrl : String) (vault : List VFile)
    (api? : Option (List Category)) (hs : ¬ siteUrl = "") :
    ((convertBacklinks text siteUrl vault api?).errors = [] ↔
      ∀ p ∈ (scanRefs text.data).1,
        ∃ url, (resolveBacklinkWithDebug (trimS ⟨p.2.target⟩) siteUrl vault api?).1 =
          .ok url) ∧
    ((convertBacklinks text siteUrl vault api?).errors =
      (scanRefs text.data).1.filterMap (fun p => (processRef siteUrl vault api? p).2.1)) ∧
    ((convertBacklinks text siteUrl vault api?).debug.conversions.length =
      (scanRefs text.data).1.length) := by
  have hrepr : (convertBacklinks text siteUrl vault api?).errors =
      (scanRefs text.data).1.filterMap (fun p => (processRef siteUrl vault api? p).2.1) := by
    unfold convertBacklinks
    rw [if_neg hs]
    simp only [List.filterMap_map]
    rfl
  refine ⟨?_, hrepr, ?_⟩
  · rw [hrepr, List.filterMap_eq_nil_iff]
    constructor
    · intro h p hp
      exact (processRef_none_iff siteUrl vault api? p).mp (h p hp)
    · intro h p hp
      exact (processRef_none_iff siteUrl vault api? p).mpr (h p hp)
  · unfold convertBacklinks
    rw [if_neg hs]
    simp

/-- Witness for C2 at a concrete body with one failing reference. -/
theorem spec_c2_witness :
    ((convertBacklinks "a [[x]] b" "https://s" [] (some [])).errors = [] ↔
      ∀ p ∈ (scanRefs ("a [[x]] b" : String).data).1,
        ∃ url, (resolveBacklinkWithDebug (trimS ⟨p.2.target⟩) "https://s" [] (some [])).1 =
          .ok url) ∧
    ((convertBacklinks "a [[x]] b" "https://s" [] (some [])).errors =
      (scanRefs ("a [[x]] b" : String).data).1.filterMap
        (fun p => (processRef "https://s" [] (some []) p).2.1)) ∧
    ((convertBacklinks "a [[x]] b" "https://s" [] (some [])).debug.conversions.length =
      (scanRefs ("a [[x]] b" : String).data).1.length) :=
  spec_c2 "a [[x]] b" "https://s" [] (some []) (by decide)

-- ===== C1 =====

/-- C1: when backlink resolution reports at least one error, the publish
invocation surfaces the errors in a notice and performs no remote create or
update call and no frontmatter write-back. -/
theorem spec_c1 (env : PubEnv) (file : VFile)
    (hf : env.activeFile = some file)
    (he : ¬ (env.profile.apiEndpoint = "" ∨ env.profile.token = ""))
    (herr : (convertBacklinks (parseFrontmatter file.content).body env.profile.siteUrl
        env.vault (some env.cats)).errors ≠ []) :
    (Effect.notice (backlinkFailNotice
        (convertBacklinks (parseFrontmatter file.content).body env.profile.siteUrl
          env.vault (some env.cats)).errors) ∈ publishCurrent env) ∧
    ∀ e ∈ publishCurrent env, e.isCreateOrUpdate = false ∧ e.isWriteFm = false := by
  have hrun : publishCurrent env =
      [Effect.fetchCategories,
       Effect.notice (backlinkFailNotice
         (convertBacklinks (parseFrontmatter file.content).body env.profile.siteUrl
           env.vault (some env.cats)).errors)] := by
    unfold publishCurrent
    rw [hf]
    simp [he, herr]
  rw [hrun]
  refine ⟨by simp, ?_⟩
  intro e he'
  simp at he'
  rcases he' with rfl | rfl <;> exact ⟨rfl, rfl⟩

/-- Witness for C1 at a concrete environment with one failing reference. -/
theorem spec_c1_witness :
    (Effect.notice (backlinkFailNotice
        (convertBacklinks (parseFrontmatter "x [[missing]]").body "https://s"
          [] (some [])).errors) ∈
      publishCurrent
        { activeFile := some
            { path := "m.md", name := "m.md", basename := "m", content := "x [[missing]]" },
          profile := { apiEndpoint := "https://api", token := "t", siteUrl := "https://s" },
          vault := [], cats := [],
          noteResp := { id := "i", nid := 1, title := "t" },
          postResp := { id := "i", slug := "s", categoryId := "c", title := "t" },
          now := "2024" }) ∧
    ∀ e ∈ publishCurrent
        { activeFile := some
            { path := "m.md", name := "m.md", basename := "m", content := "x [[missing]]" },
          profile := { apiEndpoint := "https://api", token := "t", siteUrl := "https://s" },
          vault := [], cats := [],
          noteResp := { id := "i", nid := 1, title := "t" },
          postResp := { id := "i", slug := "s", categoryId := "c", title := "t" },
          now := "2024" },
      e.isCreateOrUpdate = false ∧ e.isWriteFm = false :=
  spec_c1
    { activeFile := some
        { path := "m.md", name := "m.md", basename := "m", content := "x [[missing]]" },
      profile := { apiEndpoint := "https://api", token := "t", siteUrl := "https://s" },
      vault := [], cats := [],
      noteResp := { id := "i", nid := 1, title := "t" },
      postResp := { id := "i", slug := "s", categoryId := "c", title := "t" },
      now := "2024" }
    { path := "m.md", name := "m.md", basename := "m", content := "x [[missing]]" }
    rfl (by decide) (by decide)

-- ===== C7 =====

/-- No two adjacent hyphens. -/
def noDD (l : List Char) : Prop :=
  List.Chain' (fun a b => ¬(a = '-' ∧ b = '-')) l

theorem dropLeadHyphen_cons (c : Char) (t : List Char) :
    dropLeadHyphen (c :: t) = if c = '-' then t else c :: t := rfl

theorem slugAllowed_ne_dash {c : Char} (h : slugAllowed c = true) : c ≠ '-' := by
  intro hc
  subst hc
  exact absurd h (by decide)

theorem lowerChar_fixed {c : Char} (h : slugAllowed c = true ∨ c = '-') :
    lowerChar c = c := by
  rcases h with h | rfl
  · unfold lowerChar
    rw [if_neg]
    unfold slugAllowed at h
    simp only [Bool.or_eq_true, decide_eq_true_eq] at h
    rcases h with ⟨h1, h2⟩ | ⟨h1, h2⟩ | ⟨h1, h2⟩ <;> omega
  · decide

theorem mem_collapse {cs : List Char} :
    ∀ b, ∀ x ∈ collapseRunsF b cs, slugAllowed x = true ∨ x = '-' := by
  induction cs with
  | nil => intro b x hx; simp [collapseRunsF] at hx
  | cons c cs ih =>
    intro b x hx
    unfold collapseRunsF at hx
    by_cases h : slugAllowed c = true
    · rw [if_pos h] at hx
      rcases List.mem_cons.mp hx with rfl | hx'
      · exact Or.inl h
      · exact ih false x hx'
    · rw [if_neg h] at hx
      cases b with
      | true =>
        rw [if_pos rfl] at hx
        exact ih true x hx
      | false =>
        rw [if_neg (by simp)] at hx
        rcases List.mem_cons.mp hx with rfl | hx'
        · exact Or.inr rfl
        · exact ih true x hx'

theorem collapse_nodd (cs : List Char) :
    (∀ b, noDD (collapseRunsF b cs)) ∧ (collapseRunsF true cs).head? ≠ some '-' := by
  induction cs with
  | nil => exact ⟨fun b => List.chain'_nil, by simp [collapseRunsF]⟩
  | cons c cs ih =>
    obtain ⟨ihc, ihh⟩ := ih
    constructor
    · intro b
      unfold collapseRunsF
      by_cases h : slugAllowed c = true
      · rw [if_pos h]
        rw [noDD, List.chain'_cons']
        refine ⟨?_, ihc false⟩
        intro y _ hcontra
        exact slugAllowed_ne_dash h hcontra.1
      · rw [if_neg h]
        cases b with
        | true =>
          rw [if_pos rfl]
          exact ihc true
        | false =>
          rw [if_neg (by simp)]
          rw [noDD, List.chain'_cons']
          refine ⟨?_, ihc true⟩
          intro y hy hcontra
          apply ihh
          rw [hy, hcontra.2]
    · unfold collapseRunsF
      by_cases h : slugAllowed c = true
      · rw [if_pos h]
        simp only [List.head?_cons, ne_eq, Option.some.injEq]
        exact slugAllowed_ne_dash h
      · rw [if_neg h, if_pos rfl]
        exact ihh

theorem collapse_fixed :
    ∀ cs : List Char, (∀ x ∈ cs, slugAllowed x = true ∨ x = '-') → noDD cs →
      collapseRunsF false cs = cs ∧
      (cs.head? ≠ some '-' → collapseRunsF true cs = cs) := by
  intro cs
  induction cs with
  | nil => intro _ _; exact ⟨rfl, fun _ => rfl⟩
  | cons c cs ih =>
    intro hmem hchain
    have hmem' : ∀ x ∈ cs, slugAllowed x = true ∨ x = '-' :=
      fun x hx => hmem x (List.mem_cons_of_mem _ hx)
    have hchain' : noDD cs := (List.chain'_cons'.mp hchain).2
    obtain ⟨ih1, ih2⟩ := ih hmem' hchain'
    rcases hmem c (List.mem_cons_self c cs) with hc | rfl
    · constructor
      · unfold collapseRunsF
        rw [if_pos hc, ih1]
      · intro _
        unfold collapseRunsF
        rw [if_pos hc, ih1]
    · have hhead : cs.head? ≠ some '-' := by
        intro hh
        exact (List.chain'_cons'.mp hchain).1 '-' hh ⟨rfl, rfl⟩
      constructor
      · unfold collapseRunsF
        rw [if_neg (by decide), if_neg (by simp), ih2 hhead]
      · intro hh
        exact absurd rfl hh

theorem mem_dropLead {x : Char} {l : List Char} (h : x ∈ dropLeadHyphen l) : x ∈ l := by
  cases l with
  | nil => simpa [dropLeadHyphen] using h
  | cons c t =>
    rw [dropLeadHyphen_cons] at h
    by_cases hc : c = '-'
    · rw [if_pos hc] at h
      exact List.mem_cons_of_mem _ h
    · rwa [if_neg hc] at h

theorem noDD_dropLead {l : List Char} (h : noDD l) : noDD (dropLeadHyphen l) := by
  cases l with
  | nil => exact h
  | cons c t =>
    rw [dropLeadHyphen_cons]
    by_cases hc : c = '-'
    · rw [if_pos hc]
      exact (List.chain'_cons'.mp h).2
    · rwa [if_neg hc]

theorem head_dropLead {l : List Char} (h : noDD l) :
    (dropLeadHyphen l).head? ≠ some '-' := by
  cases l with
  | nil => simp [dropLeadHyphen]
  | cons c t =>
    rw [dropLeadHyphen_cons]
    by_cases hc : c = '-'
    · rw [if_pos hc]
      intro hh
      subst hc
      exact (List.chain'_cons'.mp h).1 '-' hh ⟨rfl, rfl⟩
    · rw [if_neg hc]
      simpa using hc

theorem dropLead_of_head {l : List Char} (h : l.head? ≠ some '-') :
    dropLeadHyphen l = l := by
  cases l with
  | nil => rfl
  | cons c t =>
    rw [dropLeadHyphen_cons, if_neg (by simpa using h)]

theorem noDD_reverse {l : List Char} (h : noDD l) : noDD l.reverse := by
  rw [noDD, List.chain'_reverse]
  exact List.Chain'.imp (fun a b hab hc => hab ⟨hc.2, hc.1⟩) h

theorem head_dropTrail (l : List Char) :
    (dropTrailHyphen l).head? = none ∨ (dropTrailHyphen l).head? = l.head? := by
  unfold dropTrailHyphen
  cases hrev : l.reverse with
  | nil =>
    simp [dropLeadHyphen]
  | cons c t =>
    have hl : l = t.reverse ++ [c] := by
      have := congrArg List.reverse hrev
      simpa using this
    rw [dropLeadHyphen_cons]
    by_cases hc : c = '-'
    · rw [if_pos hc]
      cases ht : t.reverse with
      | nil => left; simp [ht]
      | cons d u =>
        right
        rw [hl, ht]
        simp
    · rw [if_neg hc]
      right
      rw [show (c :: t).reverse = l from by rw [← hrev]; exact l.reverse_reverse]

theorem lowerL_fixed {l : List Char} (h : ∀ x ∈ l, slugAllowed x = true ∨ x = '-') :
    lowerL l = l := by
  induction l with
  | nil => rfl
  | cons c t ih =>
    unfold lowerL at ih ⊢
    rw [List.map_cons, lowerChar_fixed (h c (List.mem_cons_self c t)),
      ih (fun x hx => h x (List.mem_cons_of_mem _ hx))]

/-- C7: slug generation is idempotent — re-slugging its own output is the
identity, where `generateSlug` lower-cases, collapses runs of characters
outside `[a-z0-9一-龥]` to single hyphens, and trims boundary hyphens. -/
theorem spec_c7 (s : String) : generateSlug (generateSlug s) = generateSlug s := by
  unfold generateSlug
  have hL0mem : ∀ x ∈ collapseRunsF false (lowerL s.data),
      slugAllowed x = true ∨ x = '-' := mem_collapse false
  have hL0chain : noDD (collapseRunsF false (lowerL s.data)) :=
    (collapse_nodd (lowerL s.data)).1 false
  set L1 := dropLeadHyphen (collapseRunsF false (lowerL s.data)) with hL1
  have hmem1 : ∀ x ∈ L1, slugAllowed x = true ∨ x = '-' :=
    fun x hx => hL0mem x (mem_dropLead hx)
  have hchain1 : noDD L1 := noDD_dropLead hL0chain
  have hhead1 : L1.head? ≠ some '-' := head_dropLead hL0chain
  set L2 := dropTrailHyphen L1 with hL2
  have hmem2 : ∀ x ∈ L2, slugAllowed x = true ∨ x = '-' := by
    intro x hx
    apply hmem1
    rw [hL2] at hx
    unfold dropTrailHyphen at hx
    rw [List.mem_reverse] at hx
    have := mem_dropLead hx
    rwa [List.mem_reverse] at this
  have hchain2 : noDD L2 := by
    rw [hL2]
    unfold dropTrailHyphen
    exact noDD_reverse (noDD_dropLead (noDD_reverse hchain1))
  have hhead2 : L2.head? ≠ some '-' := by
    rcases head_dropTrail L1 with h | h
    · rw [← hL2] at h
      rw [h]
      simp
    · rw [← hL2] at h
      rw [h]
      exact hhead1
  have hrev2 : L2.reverse.head? ≠ some '-' := by
    rw [hL2]
    unfold dropTrailHyphen
    rw [List.reverse_reverse]
    exact head_dropLead (noDD_reverse hchain1)
  have hdata : (⟨L2⟩ : String).data = L2 := rfl
  rw [hdata]
  have e1 : lowerL L2 = L2 := lowerL_fixed hmem2
  rw [e1]
  have e2 : collapseRunsF false L2 = L2 := (collapse_fixed L2 hmem2 hchain2).1
  rw [e2]
  have e3 : dropLeadHyphen L2 = L2 := dropLead_of_head hhead2
  rw [e3]
  have e4 : dropTrailHyphen L2 = L2 := by
    unfold dropTrailHyphen
    rw [dropLead_of_head hrev2, List.reverse_reverse]
  rw [e4]

-- ===== C6 =====

theorem takeWhile_append_eq {p : Char → Bool} :
    ∀ (xs : List Char) (y : Char) (ys : List Char),
      (∀ x ∈ xs, p x = true) → p y = false →
      (xs ++ y :: ys).takeWhile p = xs := by
  intro xs
  induction xs with
  | nil =>
    intro y ys _ hy
    simp [List.takeWhile_cons, hy]
  | cons x xs ih =>
    intro y ys hxs hy
    have hx : p x = true := hxs x (List.mem_cons_self x xs)
    simp only [List.cons_append, List.takeWhile_cons, hx, if_true]
    rw [ih y ys (fun z hz => hxs z (List.mem_cons_of_mem _ hz)) hy]

/-- Shape of a match produced by the backlink pattern: the full text is the
brackets around the captures, the target avoids `]` and `|`, the display
avoids `]`, and both captures are non-empty. -/
def RefWf (m : RefMatch) : Prop :=
  m.target ≠ [] ∧ (∀ c ∈ m.target, targetChar c = true) ∧
  (match m.display with
   | none => m.full = '[' :: '[' :: (m.target ++ [']', ']'])
   | some d => d ≠ [] ∧ (∀ c ∈ d, displayChar c = true) ∧
       m.full = '[' :: '[' :: (m.target ++ '|' :: (d ++ [']', ']'])))

theorem drop_takeWhile_length {p : Char → Bool} {l t : List Char}
    (ht : l.takeWhile p ++ t = l) : l.drop (l.takeWhile p).length = t := by
  nth_rewrite 2 [← ht]
  exact List.drop_left _ _

theorem closeBrackets_cons (a b : Char) (u : List Char) :
    closeBrackets (a :: b :: u) = if a = ']' ∧ b = ']' then some u else none := rfl

theorem closeBrackets_eq_some {l rem : List Char} :
    closeBrackets l = some rem ↔ l = ']' :: ']' :: rem := by
  cases l with
  | nil => simp [closeBrackets]
  | cons a t =>
    cases t with
    | nil => simp [closeBrackets]
    | cons b u =>
      rw [closeBrackets_cons]
      by_cases hab : a = ']' ∧ b = ']'
      · rw [if_pos hab]
        obtain ⟨rfl, rfl⟩ := hab
        simp
      · rw [if_neg hab]
        constructor
        · intro hc
          exact absurd hc (by simp)
        · intro hc
          simp only [List.cons.injEq] at hc
          exact absurd ⟨hc.1, hc.2.1⟩ hab

theorem matchDisp_sound {target rest2 : List Char} {m : RefMatch} {rest : List Char}
    (htgt : target ≠ []) (hmemt : ∀ c ∈ target, targetChar c = true)
    (h : matchDisp target rest2 = some (m, rest)) :
    '[' :: '[' :: (target ++ '|' :: rest2) = m.full ++ rest ∧ RefWf m := by
  unfold matchDisp at h
  split at h
  · exact absurd h (by simp)
  rename_i hdisp
  obtain ⟨t2, ht2⟩ := List.takeWhile_prefix (l := rest2) (p := displayChar)
  rw [drop_takeWhile_length ht2] at h
  split at h
  case _ rem hcb =>
    have ht2shape : t2 = ']' :: ']' :: rem := closeBrackets_eq_some.mp hcb
    simp only [Option.some.injEq, Prod.mk.injEq] at h
    obtain ⟨hm, hrest⟩ := h
    subst hrest
    constructor
    · rw [← hm]
      simp only []
      conv_lhs => rw [← ht2, ht2shape]
      simp
    · rw [← hm]
      exact ⟨htgt, hmemt, hdisp, fun c hc => List.mem_takeWhile_imp hc, by simp⟩
  case _ =>
    exact absurd h (by simp)

theorem matchTail_sound {rest0 : List Char} {m : RefMatch} {rest : List Char}
    (h : matchTail rest0 = some (m, rest)) :
    '[' :: '[' :: rest0 = m.full ++ rest ∧ RefWf m := by
  unfold matchTail at h
  split at h
  · exact absurd h (by simp)
  rename_i htgt
  obtain ⟨t, ht⟩ := List.takeWhile_prefix (l := rest0) (p := targetChar)
  rw [drop_takeWhile_length ht] at h
  cases t with
  | nil =>
    exact absurd (show (none : Option (RefMatch × List Char)) = some (m, rest) from h) (by simp)
  | cons a after =>
    by_cases ha : a = '|'
    · subst ha
      have h' : matchDisp (rest0.takeWhile targetChar) after = some (m, rest) := h
      obtain ⟨hdec, hwf⟩ :=
        matchDisp_sound htgt (fun c hc => List.mem_takeWhile_imp hc) h'
      refine ⟨?_, hwf⟩
      conv_lhs => rw [← ht]
      exact hdec
    · have h2 : (if a = '|' then matchDisp (rest0.takeWhile targetChar) after
          else match closeBrackets (a :: after) with
               | some rem =>
                 some ({ full := '[' :: '[' :: (rest0.takeWhile targetChar ++ [']', ']']),
                         target := rest0.takeWhile targetChar, display := none }, rem)
               | none => none) = some (m, rest) := h
      rw [if_neg ha] at h2
      split at h2
      case _ rem hcb =>
        have hshape : a :: after = ']' :: ']' :: rem := closeBrackets_eq_some.mp hcb
        simp only [Option.some.injEq, Prod.mk.injEq] at h2
        obtain ⟨hm, hrest⟩ := h2
        subst hrest
        constructor
        · rw [← hm]
          simp only []
          conv_lhs => rw [← ht, hshape]
          simp
        · rw [← hm]
          exact ⟨htgt, fun c hc => List.mem_takeWhile_imp hc, by simp⟩
      case _ =>
        exact absurd h2 (by simp)

theorem matchAt_sound {cs : List Char} {m : RefMatch} {rest : List Char}
    (h : matchAt cs = some (m, rest)) : cs = m.full ++ rest ∧ RefWf m := by
  unfold matchAt at h
  split at h
  case _ a b rest0 =>
    split at h
    · rename_i hab
      obtain ⟨ha, hb⟩ := hab
      subst ha
      subst hb
      exact matchTail_sound h
    · exact absurd h (by simp)
  case _ =>
    exact absurd h (by simp)

theorem matchTail_noDisp {target : List Char} (tail : List Char)
    (hne : target ≠ []) (hmem : ∀ c ∈ target, targetChar c = true) :
    matchTail (target ++ ']' :: ']' :: tail) =
      some ({ full := '[' :: '[' :: (target ++ [']', ']']),
              target := target, display := none }, tail) := by
  unfold matchTail
  rw [takeWhile_append_eq target ']' (']' :: tail) hmem (by decide)]
  rw [if_neg hne, List.drop_left]
  rfl

theorem matchTail_disp {target d : List Char} (tail : List Char)
    (hne : target ≠ []) (hmem : ∀ c ∈ target, targetChar c = true)
    (hdne : d ≠ []) (hdmem : ∀ c ∈ d, displayChar c = true) :
    matchTail (target ++ '|' :: (d ++ ']' :: ']' :: tail)) =
      some ({ full := '[' :: '[' :: (target ++ '|' :: (d ++ [']', ']'])),
              target := target, display := some d }, tail) := by
  unfold matchTail
  rw [takeWhile_append_eq target '|' (d ++ ']' :: ']' :: tail) hmem (by decide)]
  rw [if_neg hne, List.drop_left]
  show matchDisp target (d ++ ']' :: ']' :: tail) = _
  unfold matchDisp
  rw [takeWhile_append_eq d ']' (']' :: tail) hdmem (by decide)]
  rw [if_neg hdne, List.drop_left]
  rfl

theorem matchAt_complete {m : RefMatch} (hwf : RefWf m) (tail : List Char) :
    matchAt (m.full ++ tail) = some (m, tail) := by
  obtain ⟨htgt, hmem, hshape⟩ := hwf
  cases m with
  | mk full target display =>
    cases display with
    | none =>
      simp only at hshape
      subst hshape
      show matchTail ((target ++ [']', ']']) ++ tail) = _
      rw [show (target ++ [']', ']']) ++ tail = target ++ ']' :: ']' :: tail by simp]
      exact matchTail_noDisp tail htgt hmem
    | some d =>
      simp only at hshape
      obtain ⟨hdne, hdmem, hshape⟩ := hshape
      subst hshape
      show matchTail ((target ++ '|' :: (d ++ [']', ']'])) ++ tail) = _
      rw [show (target ++ '|' :: (d ++ [']', ']'])) ++ tail =
        target ++ '|' :: (d ++ ']' :: ']' :: tail) by simp]
      exact matchTail_disp tail htgt hmem hdne hdmem

theorem findRef_sound :
    ∀ {cs g : List Char} {m : RefMatch} {rest : List Char},
      findRef cs = some (g, m, rest) →
      cs = g ++ m.full ++ rest ∧ RefWf m ∧
        ∀ i < g.length, matchAt (cs.drop i) = none := by
  intro cs
  induction cs with
  | nil => intro g m rest h; exact absurd h (by simp [findRef])
  | cons c cs' ih =>
    intro g m rest h
    unfold findRef at h
    cases hm : matchAt (c :: cs') with
    | some pr =>
      rw [hm] at h
      rcases pr with ⟨m0, r0⟩
      simp only [Option.some.injEq, Prod.mk.injEq] at h
      obtain ⟨hg, hm0, hr⟩ := h
      subst hg
      subst hm0
      subst hr
      obtain ⟨hdec, hwf⟩ := matchAt_sound hm
      refine ⟨by simpa using hdec, hwf, ?_⟩
      intro i hi
      simp at hi
    | none =>
      rw [hm] at h
      cases hf : findRef cs' with
      | none => rw [hf] at h; exact absurd h (by simp)
      | some pr =>
        rw [hf] at h
        rcases pr with ⟨g', m', r'⟩
        simp only [Option.map_some', Option.some.injEq, Prod.mk.injEq] at h
        obtain ⟨hg, hm', hr⟩ := h
        obtain ⟨hdec, hwf, hleft⟩ := ih hf
        subst hm'
        subst hr
        rw [← hg]
        refine ⟨by rw [hdec]; simp, hwf, ?_⟩
        intro i hi
        cases i with
        | zero => simpa using hm
        | succ j =>
          simp only [List.length_cons, Nat.succ_lt_succ_iff] at hi
          simpa using hleft j hi

theorem findRef_no_earlier {cs g : List Char} {m : RefMatch} {rest : List Char}
    (h : findRef cs = some (g, m, rest)) :
    ∀ i < g.length, prefixAt m.full (cs.drop i) = false := by
  obtain ⟨_, hwf, hleft⟩ := findRef_sound h
  intro i hi
  by_contra hp
  rw [Bool.not_eq_false] at hp
  rw [prefixAt, List.isPrefixOf_iff_prefix] at hp
  obtain ⟨t, ht⟩ := hp
  have := matchAt_complete hwf t
  rw [ht] at this
  rw [hleft i hi] at this
  exact absurd this (by simp)

theorem expandDollar_cons₂ (pre matched post : List Char) (c d : Char) (r : List Char) :
    expandDollar pre matched post (c :: d :: r) =
      if c = '$' then
        if d = '$' then '$' :: expandDollar pre matched post r
        else if d = '&' then matched ++ expandDollar pre matched post r
        else if d = Char.ofNat 96 then pre ++ expandDollar pre matched post r
        else if d = '\'' then post ++ expandDollar pre matched post r
        else c :: expandDollar pre matched post (d :: r)
      else c :: expandDollar pre matched post (d :: r) := rfl

theorem expandDollar_of_no_dollar (pre matched post : List Char) :
    ∀ rep : List Char, '$' ∉ rep → expandDollar pre matched post rep = rep := by
  intro rep
  induction rep with
  | nil => intro _; rfl
  | cons c r ih =>
    intro hd
    have hc : ¬ c = '$' := fun hh => hd (hh ▸ List.mem_cons_self c r)
    cases r with
    | nil => rfl
    | cons d r' =>
      rw [expandDollar_cons₂, if_neg hc,
        ih (fun hm => hd (List.mem_cons_of_mem _ hm))]

theorem replaceFirstAux_nil (rpre pat rep : List Char) :
    replaceFirstAux rpre [] pat rep =
      if prefixAt pat [] then rpre.reverse ++ expandDollar rpre.reverse pat [] rep
      else rpre.reverse := rfl

theorem replaceFirstAux_cons (rpre : List Char) (c : Char) (cs pat rep : List Char) :
    replaceFirstAux rpre (c :: cs) pat rep =
      if prefixAt pat (c :: cs) then
        rpre.reverse ++ expandDollar rpre.reverse pat ((c :: cs).drop pat.length) rep
          ++ (c :: cs).drop pat.length
      else replaceFirstAux (c :: rpre) cs pat rep := rfl

theorem replaceFirstAux_at_span :
    ∀ (g rpre pat rest rep : List Char),
      (∀ i < g.length, prefixAt pat ((g ++ pat ++ rest).drop i) = false) →
      replaceFirstAux rpre (g ++ pat ++ rest) pat rep =
        rpre.reverse ++ g ++ expandDollar (rpre.reverse ++ g) pat rest rep ++ rest := by
  intro g
  induction g with
  | nil =>
    intro rpre pat rest rep _
    simp only [List.nil_append]
    cases hp : pat ++ rest with
    | nil =>
      have hpn : pat = [] := by
        cases pat with
        | nil => rfl
        | cons a t => simp at hp
      have hrn : rest = [] := by
        cases pat <;> simp_all
      subst hpn
      subst hrn
      rw [replaceFirstAux_nil, if_pos (by decide)]
      simp
    | cons c t =>
      rw [replaceFirstAux_cons, ← hp]
      rw [if_pos (by rw [prefixAt, List.isPrefixOf_iff_prefix]; exact List.prefix_append _ _)]
      rw [List.drop_left]
      simp
  | cons c g' ih =>
    intro rpre pat rest rep h
    have h0 : prefixAt pat (c :: (g' ++ (pat ++ rest))) = false := by
      have := h 0 (by simp)
      simpa [List.append_assoc] using this
    have hsh : ∀ i < g'.length, prefixAt pat ((g' ++ pat ++ rest).drop i) = false := by
      intro i hi
      have := h (i + 1) (by simpa using Nat.succ_lt_succ hi)
      simpa using this
    show replaceFirstAux rpre (c :: (g' ++ pat ++ rest)) pat rep = _
    rw [replaceFirstAux_cons]
    rw [if_neg (by simp [h0])]
    rw [ih (c :: rpre) pat rest rep hsh]
    simp [List.append_assoc]

theorem replaceFirst_at_span (g pat rest rep : List Char)
    (h : ∀ i < g.length, prefixAt pat ((g ++ pat ++ rest).drop i) = false) :
    replaceFirstL (g ++ pat ++ rest) pat rep =
      g ++ expandDollar g pat rest rep ++ rest := by
  unfold replaceFirstL
  rw [replaceFirstAux_at_span g [] pat rest rep h]
  simp

theorem scanAux_nil_snd {fuel : Nat} {rest fin : List Char}
    (h : scanAux fuel rest = ([], fin)) : fin = rest := by
  cases fuel with
  | zero => simpa [scanAux] using (congrArg Prod.snd h).symm
  | succ fuel' =>
    unfold scanAux at h
    cases hf : findRef rest with
    | none => rw [hf] at h; simpa using (congrArg Prod.snd h).symm
    | some pr =>
      rw [hf] at h
      rcases pr with ⟨g, m, r⟩
      simp at h

theorem scanRefs_single {cs g fin : List Char} {m : RefMatch}
    (h : scanRefs cs = ([(g, m)], fin)) : findRef cs = some (g, m, fin) := by
  unfold scanRefs scanAux at h
  cases hf : findRef cs with
  | none => rw [hf] at h; simp at h
  | some pr =>
    rcases pr with ⟨g0, m0, r0⟩
    rw [hf] at h
    simp only [Prod.mk.injEq, List.cons.injEq] at h
    obtain ⟨⟨hgm, hps⟩, hfin⟩ := h
    obtain ⟨hg, hm⟩ := hgm
    have hr : fin = r0 := by
      have hsc2 : scanAux cs.length r0 = ([], fin) := by
        have hpair : scanAux cs.length r0 =
            ((scanAux cs.length r0).1, (scanAux cs.length r0).2) := rfl
        rw [hpair, hps, hfin]
      exact scanAux_nil_snd hsc2
    subst hg
    subst hm
    rw [hr]

/-- C6 counterexample: in the body `[[a|[[b]] [[b]]`, the reference `a`
fails (file not found) while `[[b]]` resolves; the first-occurrence
substitution replaces the `[[b]]` text inside the failed reference's span,
not the matched span, so the rest of the text is changed. -/
theorem spec_c6_counterexample :
    (convertBacklinks "[[a|[[b]] [[b]]" "https://example.com" [fileB] (some [])).text =
      "[[a|[b](https://example.com/notes/42) [[b]]" ∧
    (convertBacklinks "[[a|[[b]] [[b]]" "https://example.com" [fileB] (some [])).text ≠
      "[[a|[[b]] [b](https://example.com/notes/42)" :=
  ⟨by rfl, by decide⟩

/-- C6 (amended): replacements are applied by first-occurrence substring
substitution of each matched `[[...]]` text, in match order, which can land
on an identical earlier substring, and the inserted text is the ECMAScript
`GetSubstitution` expansion of `[label](url)` (so `$$`, `$&`, a dollar
followed by a backtick, and `$'` in the label or URL are expanded).  When
the body contains exactly one reference and it resolves, the substitution
is exactly at the matched span — the output is the gap before the match,
then the expansion of `[label](url)` (label the trimmed display if given
and non-blank, else the trimmed target), then the gap after; when the
replacement text contains no dollar sign, it is inserted literally and the
rest of the text is unchanged. -/
theorem spec_c6 (text siteUrl : String) (vault : List VFile)
    (api? : Option (List Category)) (g fin : List Char) (m : RefMatch) (url : String)
    (hs : ¬ siteUrl = "")
    (hscan : scanRefs text.data = ([(g, m)], fin))
    (hres : (resolveBacklinkWithDebug (trimS ⟨m.target⟩) siteUrl vault api?).1 = .ok url) :
    text.data = g ++ m.full ++ fin ∧
    (convertBacklinks text siteUrl vault api?).text =
      ⟨g ++ expandDollar g m.full fin ("[" ++ refLabel m ++ "](" ++ url ++ ")").data
        ++ fin⟩ ∧
    ('$' ∉ ("[" ++ refLabel m ++ "](" ++ url ++ ")").data →
      (convertBacklinks text siteUrl vault api?).text =
        ⟨g ++ ("[" ++ refLabel m ++ "](" ++ url ++ ")").data ++ fin⟩) := by
  have hfind := scanRefs_single hscan
  obtain ⟨hdec, hwf, _⟩ := findRef_sound hfind
  have hnoearly := findRef_no_earlier hfind
  have htext : (convertBacklinks text siteUrl vault api?).text =
      ⟨g ++ expandDollar g m.full fin ("[" ++ refLabel m ++ "](" ++ url ++ ")").data
        ++ fin⟩ := by
    rcases hrd : resolveBacklinkWithDebug (trimS ⟨m.target⟩) siteUrl vault api? with ⟨res, tr⟩
    have hres' : res = .ok url := by
      rw [hrd] at hres
      exact hres
    subst hres'
    have hpr : processRef siteUrl vault api? (g, m) =
        (some (m.full, ("[" ++ refLabel m ++ "](" ++ url ++ ")").data), none,
          { tr with finalUrl := some url }) := by
      unfold processRef
      simp only []
      rw [hrd]
    have hconv : (convertBacklinks text siteUrl vault api?).text =
        ⟨((((scanRefs text.data).1.map (processRef siteUrl vault api?)).filterMap
          (fun s => s.1)).foldl (fun acc fr => replaceFirstL acc fr.1 fr.2) text.data)⟩ := by
      unfold convertBacklinks
      rw [if_neg hs]
    rw [hconv, hscan]
    simp only [List.map_cons, List.map_nil, hpr, List.filterMap_cons, List.filterMap_nil,
      List.foldl_cons, List.foldl_nil]
    have hrepl : replaceFirstL text.data m.full
        ("[" ++ refLabel m ++ "](" ++ url ++ ")").data =
        g ++ expandDollar g m.full fin ("[" ++ refLabel m ++ "](" ++ url ++ ")").data
          ++ fin := by
      conv_lhs => rw [hdec]
      refine replaceFirst_at_span g m.full fin _ ?_
      intro i hi
      have := hnoearly i hi
      rwa [hdec] at this
    rw [hrepl]
  refine ⟨hdec, htext, ?_⟩
  intro hnd
  rw [htext, expandDollar_of_no_dollar g m.full fin _ hnd]

/-- Witness for C6 at a concrete single-reference body with a dollar-free
replacement. -/
theorem spec_c6_witness :
    ("see [[b]]" : String).data = "see ".data ++
      ({ full := ['[', '[', 'b', ']', ']'], target := ['b'],
         display := none } : RefMatch).full ++ [] ∧
    ('$' ∉ ("[" ++ refLabel { full := ['[', '[', 'b', ']', ']'], target := ['b'],
                              display := none } ++
        "](" ++ "https://example.com/notes/42" ++ ")").data) ∧
    (convertBacklinks "see [[b]]" "https://example.com" [fileB] (some [])).text =
      ⟨"see ".data ++
        ("[" ++ refLabel { full := ['[', '[', 'b', ']', ']'], target := ['b'],
                           display := none } ++
          "](" ++ "https://example.com/notes/42" ++ ")").data ++ []⟩ :=
  ⟨(spec_c6 "see [[b]]" "https://example.com" [fileB] (some []) "see ".data []
      { full := ['[', '[', 'b', ']', ']'], target := ['b'], display := none }
      "https://example.com/notes/42" (by decide) (by rfl) (by rfl)).1,
   by decide,
   (spec_c6 "see [[b]]" "https://example.com" [fileB] (some []) "see ".data []
      { full := ['[', '[', 'b', ']', ']'], target := ['b'], display := none }
      "https://example.com/notes/42" (by decide) (by rfl) (by rfl)).2.2 (by decide)⟩

end MixSpace
